/-
Verification of the librarian orchestration engine.

This file gives a shallow embedding, in Lean 4, of the core of the
librarian repository (github.com/googleapis/librarian):

* the incremental update engine of `internal/command/command.go`
  (`updateApi`, `createCommitMessage`, the `CmdUpdateApis` run loop);
* the one-shot generation front end of `internal/librarian/generate.go`
  (`runGenerate`, `shouldGenerate`, `applyDefaults`, `defaultOutput`);
* the keep-list cleaner (`checkAndClean`, `check`, `clean`).

External effects (git queries, container invocations, file writes) are
modelled by explicit oracle records whose fields give the result of each
call site, so every run of the embedded code is a pure function of its
oracle.  File-system state for the cleaner is modelled as a flat list of
entries (path, directory flag); directory walks visit entries in
lexicographic path order, matching `filepath.WalkDir`.

Data types that live in packages not present in this snapshot
(`internal/statepb`, the per-language `dart`/`rust`/`python`/`golang`
packages) are modelled from the design document, and are marked as such
in their doc comments.
-/
import Mathlib

namespace Librarian

/-! ## Commits and the commit-message algorithm (`command.go`) -/

/-- A git commit as used by `createCommitMessage`: only the hash and the
message are consulted (`go-git`'s `object.Commit`). -/
structure Commit where
  hash : String
  message : String
  deriving Repr, DecidableEq

/-- The provenance-tag marker, `command.go` line 437:
`const PiperPrefix = "PiperOrigin-RevId: "`. -/
def piperMarker : String := "PiperOrigin-RevId: "

/-- The generated source-link line for one commit, `command.go` line 446. -/
def sourceLinkLine (hash : String) : String :=
  "Source-Link: https://github.com/googleapis/googleapis/commit/" ++ hash

/-- Concatenation of a list of strings (specification helper). -/
def linesConcat (l : List String) : String := l.foldr (fun s acc => s ++ acc) ""

/-- One iteration of the inner loop of `createCommitMessage`
(lines 447-455): a message line is diverted to the `PiperOrigin-RevId`
accumulator if it carries the provenance marker, otherwise written to the
builder followed by a newline. -/
def msgLineStep (acc : String × List String) (line : String) : String × List String :=
  if line.startsWith piperMarker then (acc.1, acc.2 ++ [line])
  else (acc.1 ++ line ++ "\n", acc.2)

/-- One iteration of the outer loop of `createCommitMessage`
(lines 443-456): record the source-link line for the commit, then process
each line of its message. -/
def commitStep (acc : String × List String × List String) (c : Commit) :
    String × List String × List String :=
  let links := acc.2.2 ++ [sourceLinkLine c.hash]
  let inner := (c.message.splitOn "\n").foldl msgLineStep (acc.1, acc.2.1)
  (inner.1, inner.2, links)

/-- Models `createCommitMessage` (`command.go` lines 436-466): consume the
newest-first commit list in reverse order, accumulating non-tag lines in
the builder and provenance-tag lines and source-link lines in two
accumulators; then write the provenance-tag lines and finally the
source-link lines, each followed by a newline. -/
def createCommitMessage (commits : List Commit) : String :=
  let acc := commits.reverse.foldl commitStep ("", [], [])
  let withPiper := acc.2.1.foldl (fun b l => b ++ l ++ "\n") acc.1
  acc.2.2.foldl (fun b l => b ++ l ++ "\n") withPiper

/-- The lines of a commit message that do not carry the provenance marker,
in message order. -/
def commitNonTagLines (c : Commit) : List String :=
  (c.message.splitOn "\n").filter (fun l => ¬ l.startsWith piperMarker)

/-- The provenance-tag lines of a commit message, in message order. -/
def commitTagLines (c : Commit) : List String :=
  (c.message.splitOn "\n").filter (fun l => l.startsWith piperMarker)

lemma linesConcat_nil : linesConcat [] = "" := rfl

lemma linesConcat_cons (x : String) (xs : List String) :
    linesConcat (x :: xs) = x ++ linesConcat xs := rfl

lemma linesConcat_append (xs ys : List String) :
    linesConcat (xs ++ ys) = linesConcat xs ++ linesConcat ys := by
  induction xs with
  | nil => simp [linesConcat]
  | cons x xs ih =>
      simp only [List.cons_append, linesConcat_cons, ih, String.append_assoc]

lemma foldl_writeLines (ls : List String) (b : String) :
    ls.foldl (fun b l => b ++ l ++ "\n") b = b ++ linesConcat (ls.map (· ++ "\n")) := by
  induction ls generalizing b with
  | nil => simp [linesConcat]
  | cons l ls ih =>
      simp only [List.foldl_cons, List.map_cons, linesConcat_cons]
      rw [ih]
      simp [String.append_assoc]

lemma msgFold (lines : List String) (b : String) (p : List String) :
    lines.foldl msgLineStep (b, p) =
      (b ++ linesConcat ((lines.filter (fun l => ¬ l.startsWith piperMarker)).map (· ++ "\n")),
       p ++ lines.filter (fun l => l.startsWith piperMarker)) := by
  induction lines generalizing b p with
  | nil => simp [linesConcat]
  | cons l ls ih =>
      simp only [List.foldl_cons, msgLineStep]
      by_cases h : l.startsWith piperMarker
      · rw [if_pos h, ih]
        simp [h, List.append_assoc]
      · rw [if_neg h, ih]
        simp [h, linesConcat_cons, String.append_assoc]

lemma commitFold (cs : List Commit) (b : String) (p q : List String) :
    cs.foldl commitStep (b, p, q) =
      (b ++ linesConcat (((cs.map commitNonTagLines).flatten).map (· ++ "\n")),
       p ++ (cs.map commitTagLines).flatten,
       q ++ cs.map (fun c => sourceLinkLine c.hash)) := by
  induction cs generalizing b p q with
  | nil => simp [linesConcat]
  | cons c cs ih =>
      simp only [List.foldl_cons, commitStep, msgFold]
      rw [ih]
      simp only [List.map_cons, List.flatten_cons, List.map_append, linesConcat_append,
        commitNonTagLines, commitTagLines]
      refine Prod.ext ?_ (Prod.ext ?_ ?_) <;>
        simp [String.append_assoc, List.append_assoc]

/-- C2. For every commit list, the constructed commit message is: the
non-provenance-tag lines of each consumed commit, commits consumed
oldest-first (the newest-first input reversed); then the provenance-tag
lines in the same oldest-first order; then exactly one source-link line
per consumed commit, oldest-first; each line followed by a newline. -/
theorem createCommitMessage_structure (commits : List Commit) :
    createCommitMessage commits =
      linesConcat
        (((commits.reverse.map commitNonTagLines).flatten
            ++ (commits.reverse.map commitTagLines).flatten
            ++ commits.reverse.map (fun c => sourceLinkLine c.hash)).map (· ++ "\n")) := by
  unfold createCommitMessage
  rw [commitFold, foldl_writeLines, foldl_writeLines]
  simp [linesConcat_append, String.append_assoc, List.map_append]

/-! ## Incremental update state (`internal/statepb`, modelled) -/

/-- Modelled from the spec: `internal/statepb` is not in this snapshot.
§3 PipelineState: "automation level (normal | blocked)". -/
inductive AutomationLevel where
  | normal
  | blocked
  deriving Repr, DecidableEq

/-- Modelled from the spec: `internal/statepb` is not in this snapshot.
§3 PipelineState: "API identifier, automation level,
last-generated-source-commit" (`statepb.ApiGenerationState`). -/
structure ApiGenerationState where
  id : String
  automationLevel : AutomationLevel
  lastGeneratedCommit : String
  deriving Repr, DecidableEq

/-! ## `updateApi` (`command.go` lines 369-434)

Each external call site gets one oracle field, in program order.  A
`Bool` field is `true` when the call returns without error; an `Except`
field carries the returned value. -/

/-- Results of the external calls made by one `updateApi` iteration. -/
structure UpdateEnv where
  /-- Models `gitrepo.GetApiCommits(ctx, apiRepo, apiState.Id, apiState.LastGeneratedCommit)`,
  newest first (line 379). -/
  commitsResult : Except Unit (List Commit)
  /-- Models `os.MkdirAll(outputDir, 0755)` (line 393). -/
  mkdirOk : Bool
  /-- Models `container.Generate` (line 397). -/
  generateOk : Bool
  /-- Models `container.Clean` (line 400). -/
  cleanOk : Bool
  /-- Models `os.CopyFS` (line 403). -/
  copyOk : Bool
  /-- Models `saveState` (line 408). -/
  saveOk : Bool
  /-- Models `commitAll` (line 418). -/
  commitOk : Bool
  /-- Models `container.Build` (line 423). -/
  buildOk : Bool
  /-- Models `gitrepo.IsClean(ctx, languageRepo)` after the build (line 426). -/
  isCleanResult : Except Unit Bool
  deriving Repr

/-- Errors `updateApi` can return, one per failing call site. -/
inductive UpdateErr where
  | commitsErr
  | mkdirErr
  | generateErr
  | cleanErr
  | copyErr
  | saveErr
  | commitErr
  | buildErr
  | isCleanErr
  /-- Models `fmt.Errorf("building '%s' created changes in the repo", apiState.Id)` (line 431). -/
  | buildDirty (id : String)
  deriving Repr, DecidableEq

/-- Observable outcome of one `updateApi` call: the returned error (if
any), the in-memory API state after the call, the last-generated-commit
value successfully written to disk by `saveState` during the call (if
any), the message passed to `commitAll` (if reached), and which external
steps were invoked. -/
structure UpdateOutcome where
  result : Except UpdateErr Unit
  apiState : ApiGenerationState
  persisted : Option String
  commitMsg : Option String
  didGenerate : Bool
  didClean : Bool
  didCopy : Bool
  didCommit : Bool
  didBuild : Bool
  deriving Repr

/-- An outcome in which no external step past the commit query was
invoked and the state is unchanged. -/
def UpdateOutcome.noop (st : ApiGenerationState) (r : Except UpdateErr Unit) : UpdateOutcome :=
  { result := r, apiState := st, persisted := none, commitMsg := none,
    didGenerate := false, didClean := false, didCopy := false,
    didCommit := false, didBuild := false }

/-- Models `updateApi` (`command.go` lines 369-434).  Mirrors the source
statement by statement; early `return` becomes an outcome record carrying
the effects performed so far. -/
def updateApi (flagAPIPath : String) (env : UpdateEnv) (apiState : ApiGenerationState) :
    UpdateOutcome :=
  -- lines 370-373: with a non-empty -api-path flag, act only on that API
  if flagAPIPath ≠ "" ∧ flagAPIPath ≠ apiState.id then .noop apiState (.ok ())
  -- lines 375-378: blocked APIs are logged and skipped
  else if apiState.automationLevel = .blocked then .noop apiState (.ok ())
  else
    -- lines 379-382: query commits touching this API since the recorded one
    match env.commitsResult with
    | .error _ => .noop apiState (.error .commitsErr)
    | .ok commits =>
      match commits with
      -- lines 383-386: no commits means nothing to do
      | [] => .noop apiState (.ok ())
      | newest :: _ =>
        -- lines 392-395: per-API output directory
        if ¬ env.mkdirOk then .noop apiState (.error .mkdirErr)
        -- lines 397-399
        else if ¬ env.generateOk then
          { result := .error .generateErr, apiState := apiState, persisted := none,
            commitMsg := none, didGenerate := true, didClean := false, didCopy := false,
            didCommit := false, didBuild := false }
        -- lines 400-402
        else if ¬ env.cleanOk then
          { result := .error .cleanErr, apiState := apiState, persisted := none,
            commitMsg := none, didGenerate := true, didClean := true, didCopy := false,
            didCommit := false, didBuild := false }
        -- lines 403-405
        else if ¬ env.copyOk then
          { result := .error .copyErr, apiState := apiState, persisted := none,
            commitMsg := none, didGenerate := true, didClean := true, didCopy := true,
            didCommit := false, didBuild := false }
        else
          -- line 407: apiState.LastGeneratedCommit = commits[0].Hash.String()
          let newState := { apiState with lastGeneratedCommit := newest.hash }
          -- lines 408-410
          if ¬ env.saveOk then
            { result := .error .saveErr, apiState := newState, persisted := none,
              commitMsg := none, didGenerate := true, didClean := true, didCopy := true,
              didCommit := false, didBuild := false }
          -- lines 417-420
          else if ¬ env.commitOk then
            { result := .error .commitErr, apiState := newState,
              persisted := some newest.hash,
              commitMsg := some (createCommitMessage (newest :: commits.tail)),
              didGenerate := true, didClean := true, didCopy := true,
              didCommit := true, didBuild := false }
          -- lines 423-425
          else if ¬ env.buildOk then
            { result := .error .buildErr, apiState := newState,
              persisted := some newest.hash,
              commitMsg := some (createCommitMessage (newest :: commits.tail)),
              didGenerate := true, didClean := true, didCopy := true,
              didCommit := true, didBuild := true }
          else
            -- lines 426-432
            match env.isCleanResult with
            | .error _ =>
              { result := .error .isCleanErr, apiState := newState,
                persisted := some newest.hash,
                commitMsg := some (createCommitMessage (newest :: commits.tail)),
                didGenerate := true, didClean := true, didCopy := true,
                didCommit := true, didBuild := true }
            | .ok false =>
              { result := .error (.buildDirty apiState.id), apiState := newState,
                persisted := some newest.hash,
                commitMsg := some (createCommitMessage (newest :: commits.tail)),
                didGenerate := true, didClean := true, didCopy := true,
                didCommit := true, didBuild := true }
            | .ok true =>
              { result := .ok (), apiState := newState,
                persisted := some newest.hash,
                commitMsg := some (createCommitMessage (newest :: commits.tail)),
                didGenerate := true, didClean := true, didCopy := true,
                didCommit := true, didBuild := true }

/-- C1. If the commit query returns a non-empty, newest-first list
and the mkdir/generate/clean/copy/save steps all succeed, then the
in-memory last-generated-commit is set to the newest (first) commit hash
and that same hash is persisted to disk — regardless of how the later
commit/build/cleanliness steps turn out. -/
theorem updateApi_persists_newest (flagAPIPath : String) (env : UpdateEnv)
    (st : ApiGenerationState) (newest : Commit) (rest : List Commit)
    (hsel : flagAPIPath = "" ∨ flagAPIPath = st.id)
    (hblk : st.automationLevel ≠ .blocked)
    (hc : env.commitsResult = .ok (newest :: rest))
    (hmk : env.mkdirOk = true) (hgen : env.generateOk = true)
    (hcln : env.cleanOk = true) (hcp : env.copyOk = true) (hsv : env.saveOk = true) :
    (updateApi flagAPIPath env st).apiState.lastGeneratedCommit = newest.hash ∧
    (updateApi flagAPIPath env st).persisted = some newest.hash := by
  have hsel' : ¬ (flagAPIPath ≠ "" ∧ flagAPIPath ≠ st.id) := by
    rcases hsel with h | h <;> simp [h]
  unfold updateApi
  rw [if_neg hsel', if_neg hblk, hc]
  simp only [hmk, hgen, hcln, hcp, hsv, not_true, if_neg, if_false]
  rcases henv : env.isCleanResult with _ | b
  · split_ifs <;> simp
  · rcases b <;> split_ifs <;> simp

theorem updateApi_persists_newest_witness :
    (updateApi ""
        { commitsResult := .ok [⟨"newhash", "feat: x"⟩, ⟨"oldhash", "fix: y"⟩],
          mkdirOk := true, generateOk := true, cleanOk := true, copyOk := true,
          saveOk := true, commitOk := true, buildOk := true, isCleanResult := .ok true }
        ⟨"google/cloud/speech/v1", .normal, "basehash"⟩).apiState.lastGeneratedCommit
        = "newhash" ∧
    (updateApi ""
        { commitsResult := .ok [⟨"newhash", "feat: x"⟩, ⟨"oldhash", "fix: y"⟩],
          mkdirOk := true, generateOk := true, cleanOk := true, copyOk := true,
          saveOk := true, commitOk := true, buildOk := true, isCleanResult := .ok true }
        ⟨"google/cloud/speech/v1", .normal, "basehash"⟩).persisted = some "newhash" :=
  updateApi_persists_newest "" _ _ ⟨"newhash", "feat: x"⟩ [⟨"oldhash", "fix: y"⟩]
    (Or.inl rfl) (by simp) rfl rfl rfl rfl rfl rfl

/-- C3. If the commit query returns an empty list, `updateApi`
succeeds, performs no generate, clean, copy, commit or build, and leaves
the in-memory API state unchanged and the persisted state untouched. -/
theorem updateApi_empty_commits_noop (flagAPIPath : String) (env : UpdateEnv)
    (st : ApiGenerationState) (hc : env.commitsResult = .ok []) :
    (updateApi flagAPIPath env st).result = .ok () ∧
    (updateApi flagAPIPath env st).didGenerate = false ∧
    (updateApi flagAPIPath env st).didClean = false ∧
    (updateApi flagAPIPath env st).didCopy = false ∧
    (updateApi flagAPIPath env st).didCommit = false ∧
    (updateApi flagAPIPath env st).didBuild = false ∧
    (updateApi flagAPIPath env st).apiState = st ∧
    (updateApi flagAPIPath env st).persisted = none := by
  unfold updateApi
  by_cases h1 : flagAPIPath ≠ "" ∧ flagAPIPath ≠ st.id
  · simp [h1, UpdateOutcome.noop]
  · by_cases h2 : st.automationLevel = .blocked <;>
      simp [h1, h2, hc, UpdateOutcome.noop]

theorem updateApi_empty_commits_noop_witness :
    (updateApi ""
        { commitsResult := .ok [], mkdirOk := true, generateOk := true, cleanOk := true,
          copyOk := true, saveOk := true, commitOk := true, buildOk := true,
          isCleanResult := .ok true }
        ⟨"google/cloud/speech/v1", .normal, "basehash"⟩).result = .ok () ∧
    (updateApi ""
        { commitsResult := .ok [], mkdirOk := true, generateOk := true, cleanOk := true,
          copyOk := true, saveOk := true, commitOk := true, buildOk := true,
          isCleanResult := .ok true }
        ⟨"google/cloud/speech/v1", .normal, "basehash"⟩).apiState
      = ⟨"google/cloud/speech/v1", .normal, "basehash"⟩ :=
  have h := updateApi_empty_commits_noop ""
    { commitsResult := .ok [], mkdirOk := true, generateOk := true, cleanOk := true,
      copyOk := true, saveOk := true, commitOk := true, buildOk := true,
      isCleanResult := .ok true }
    ⟨"google/cloud/speech/v1", .normal, "basehash"⟩ rfl
  ⟨h.1, h.2.2.2.2.2.2.1⟩

/-- C10. With a non-empty API-path filter, `updateApi` returns
success immediately for every API record whose id differs from the
filter: no generation, clean, copy, commit or build happens, and the
in-memory and persisted state are untouched. -/
theorem updateApi_filtered_noop (flagAPIPath : String) (env : UpdateEnv)
    (st : ApiGenerationState) (hne : flagAPIPath ≠ "") (hid : flagAPIPath ≠ st.id) :
    updateApi flagAPIPath env st = .noop st (.ok ()) := by
  unfold updateApi
  rw [if_pos ⟨hne, hid⟩]

theorem updateApi_filtered_noop_witness :
    updateApi "google/cloud/speech/v1"
        { commitsResult := .ok [⟨"newhash", "feat: x"⟩], mkdirOk := true,
          generateOk := true, cleanOk := true, copyOk := true, saveOk := true,
          commitOk := true, buildOk := true, isCleanResult := .ok true }
        ⟨"google/cloud/texttospeech/v1", .normal, "basehash"⟩
      = .noop ⟨"google/cloud/texttospeech/v1", .normal, "basehash"⟩ (.ok ()) :=
  updateApi_filtered_noop "google/cloud/speech/v1" _ _ (by simp) (by simp)

/-! ## `CmdUpdateApis.Run` (`command.go` lines 233-367) -/

/-- Errors the update-apis run can return, one per failing call site, in
program order. -/
inductive RunErr where
  | invalidLanguage
  | missingToken
  | tmpRootErr
  | cloneApiErr
  | openApiErr
  | isCleanApiErr
  | mkdirOutputErr
  | cloneLangErr
  | openLangErr
  | isCleanLangErr
  | langRepoDirty
  | loadStateErr
  | copyInputErr
  | headHashErr
  | apiErr (e : UpdateErr)
  | headHashAfterErr
  | pushBranchErr
  | pullRequestErr
  deriving Repr, DecidableEq

/-- Flag values and external-call results for one `CmdUpdateApis.Run`
invocation.  `filepath.Abs` failures (only possible when the working
directory is unreadable) are not modelled. -/
structure RunEnv where
  /-- Models `supportedLanguages[flagLanguage]` (line 238). -/
  languageSupported : Bool
  /-- Models `flagPush` (lines 241, 351). -/
  flagPush : Bool
  /-- Models `flagGitHubToken` (line 241). -/
  gitHubToken : String
  /-- Models `createTmpWorkingRoot` (line 249). -/
  tmpRootOk : Bool
  /-- Models `flagAPIRoot` (line 256); `""` means clone googleapis afresh. -/
  apiRootFlag : String
  /-- Models `cloneGoogleapis` (line 257), used when `apiRootFlag = ""`. -/
  cloneApiOk : Bool
  /-- Models `gitrepo.Open(ctx, apiRoot)` (line 268). -/
  openApiOk : Bool
  /-- Models `gitrepo.IsClean(ctx, apiRepo)` before the run (line 272). -/
  apiRepoClean : Except Unit Bool
  /-- Models `flagOutput` (line 283); `""` means create one under the tmp root. -/
  outputFlag : String
  /-- Models `os.Mkdir(outputDir, 0755)` (line 285). -/
  mkdirOutputOk : Bool
  /-- Models `flagRepoRoot` (line 297); `""` means clone the language repo. -/
  repoRootFlag : String
  /-- Models `cloneLanguageRepo` (line 298). -/
  cloneLangOk : Bool
  /-- Models `gitrepo.Open(ctx, repoRoot)` (line 307). -/
  openLangOk : Bool
  /-- Models `gitrepo.IsClean(ctx, apiRepo)` (line 311; note the source checks
  the API repo here, not the language repo). -/
  langCheckClean : Except Unit Bool
  /-- Models `loadState` (line 320): the `ApiGenerationStates` list, each record
  paired with the oracle for its `updateApi` iteration. -/
  loadStateResult : Except Unit (List (ApiGenerationState × UpdateEnv))
  /-- Models `os.CopyFS` of generator-input (line 329). -/
  copyInputOk : Bool
  /-- Models `gitrepo.HeadHash` before the loop (line 333). -/
  headHashBefore : Except Unit String
  /-- Models `flagAPIPath` as read inside `updateApi` (line 370). -/
  flagAPIPath : String
  /-- Models `gitrepo.HeadHash` after the loop (line 356). -/
  headHashAfter : Except Unit String
  /-- Models `gitrepo.PushBranch` (line 574, via `push`). -/
  pushBranchOk : Bool
  /-- Models `gitrepo.CreatePullRequest` (line 580, via `push`). -/
  pullRequestOk : Bool
  deriving Repr

/-- Observable outcome of a `CmdUpdateApis.Run`: the returned error (if
any), whether `gitrepo.ResetHard` was invoked on the API repo (line 348),
and whether control reached the end of the per-API loop (line 344). -/
structure RunOutcome where
  result : Except RunErr Unit
  didResetHard : Bool
  didCompleteLoop : Bool
  deriving Repr

/-- The per-API loop (lines 339-344): run `updateApi` for each state
record, aborting on the first error. -/
def runApis (flagAPIPath : String) :
    List (ApiGenerationState × UpdateEnv) → Except UpdateErr Unit
  | [] => .ok ()
  | (st, e) :: rest =>
    match (updateApi flagAPIPath e st).result with
    | .error err => .error err
    | .ok _ => runApis flagAPIPath rest

/-- An outcome that aborts before the end of the per-API loop, so before
the `ResetHard` at line 348. -/
def RunOutcome.abort (e : RunErr) : RunOutcome :=
  { result := .error e, didResetHard := false, didCompleteLoop := false }

/-- Lines 254-280: open or clone the API repo and decide the
`hardResetApiRepo` flag: `true` when googleapis was cloned afresh, the
`IsClean` answer otherwise (with a warning logged when dirty). -/
def apiRepoPhase (env : RunEnv) : Except RunErr Bool :=
  if env.apiRootFlag = "" then
    if ¬ env.cloneApiOk then .error .cloneApiErr else .ok true
  else if ¬ env.openApiOk then .error .openApiErr
  else
    match env.apiRepoClean with
    | .error _ => .error .isCleanApiErr
    | .ok clean => .ok clean

/-- Lines 296-318: open or clone the language repo.  When `-repo-root` is
given, the cleanliness check (which the source performs against the API
repo, line 311) must answer `true` or the run fails. -/
def langRepoPhase (env : RunEnv) : Except RunErr Unit :=
  if env.repoRootFlag = "" then
    if ¬ env.cloneLangOk then .error .cloneLangErr else .ok ()
  else if ¬ env.openLangOk then .error .openLangErr
  else
    match env.langCheckClean with
    | .error _ => .error .isCleanLangErr
    | .ok false => .error .langRepoDirty
    | .ok true => .ok ()

/-- Lines 346-365: everything after the per-API loop.  `ResetHard` has
already run (when `didReset` is set), so every outcome here reports
`didCompleteLoop := true` and the reset decision. -/
def finishRun (didReset : Bool) (env : RunEnv) (hashBefore : String) : RunOutcome :=
  -- lines 351-354
  if ¬ env.flagPush then
    { result := .ok (), didResetHard := didReset, didCompleteLoop := true }
  else
    -- lines 356-363
    match env.headHashAfter with
    | .error _ =>
      { result := .error .headHashAfterErr, didResetHard := didReset, didCompleteLoop := true }
    | .ok hashAfter =>
      if hashBefore = hashAfter then
        { result := .ok (), didResetHard := didReset, didCompleteLoop := true }
      else
        -- lines 365, 564-581: push branch, open pull request
        if ¬ env.pushBranchOk then
          { result := .error .pushBranchErr, didResetHard := didReset, didCompleteLoop := true }
        else if ¬ env.pullRequestOk then
          { result := .error .pullRequestErr, didResetHard := didReset, didCompleteLoop := true }
        else
          { result := .ok (), didResetHard := didReset, didCompleteLoop := true }

lemma finishRun_didResetHard (d : Bool) (env : RunEnv) (h : String) :
    (finishRun d env h).didResetHard = d := by
  unfold finishRun
  by_cases h1 : env.flagPush = true
  · rw [if_neg (by simp [h1])]
    rcases env.headHashAfter with e | a
    · rfl
    · dsimp only
      split_ifs <;> rfl
  · rw [if_pos h1]

lemma finishRun_didCompleteLoop (d : Bool) (env : RunEnv) (h : String) :
    (finishRun d env h).didCompleteLoop = true := by
  unfold finishRun
  by_cases h1 : env.flagPush = true
  · rw [if_neg (by simp [h1])]
    rcases env.headHashAfter with e | a
    · rfl
    · dsimp only
      split_ifs <;> rfl
  · rw [if_pos h1]

/-- Models `CmdUpdateApis.Run` (`command.go` lines 236-366), mirrored statement
by statement over the oracle record. -/
def cmdUpdateApis (env : RunEnv) : RunOutcome :=
  -- lines 238-243: flag validation
  if ¬ env.languageSupported then .abort .invalidLanguage
  else if env.flagPush ∧ env.gitHubToken = "" then .abort .missingToken
  -- line 249
  else if ¬ env.tmpRootOk then .abort .tmpRootErr
  else
    -- lines 254-280: open or clone the API repo; decide hardResetApiRepo
    match apiRepoPhase env with
    | .error e => .abort e
    | .ok hardResetApiRepo =>
      -- lines 282-294: output directory
      if env.outputFlag = "" ∧ ¬ env.mkdirOutputOk then .abort .mkdirOutputErr
      else
        -- lines 296-318: open or clone the language repo
        match langRepoPhase env with
        | .error e => .abort e
        | .ok _ =>
          -- lines 320-336
          match env.loadStateResult with
          | .error _ => .abort .loadStateErr
          | .ok apis =>
            if ¬ env.copyInputOk then .abort .copyInputErr
            else
              match env.headHashBefore with
              | .error _ => .abort .headHashErr
              | .ok hashBefore =>
                -- lines 339-344: the per-API loop
                match runApis env.flagAPIPath apis with
                | .error e => .abort (.apiErr e)
                | .ok _ =>
                  -- lines 346-349: reset the API repo unless it was dirty,
                  -- then push if requested
                  finishRun hardResetApiRepo env hashBefore

lemma apiRepoPhase_ok (env : RunEnv) (b : Bool) (h : apiRepoPhase env = .ok b) :
    (b = true) ↔ (env.apiRootFlag = "" ∨ env.apiRepoClean = .ok true) := by
  unfold apiRepoPhase at h
  by_cases h1 : env.apiRootFlag = ""
  · rw [if_pos h1] at h
    by_cases h2 : env.cloneApiOk = true
    · simp [h2] at h
      simp [h1, h]
    · simp [h2] at h
  · rw [if_neg h1] at h
    by_cases h2 : env.openApiOk = true
    · rcases henv : env.apiRepoClean with e | clean
      · simp [h2, henv] at h
      · simp [h2, henv] at h
        simp [h1, henv, h]
    · simp [h2] at h

/-- C4 (amended). `ResetHard` is invoked on the corpus checkout
exactly when the run reaches the end of the per-API loop (line 346) and
the checkout was either freshly cloned or found clean before the run; a
run that fails earlier never resets, and a checkout found dirty before
the run is never reset. -/
theorem cmdUpdateApis_resetHard_iff (env : RunEnv) :
    (cmdUpdateApis env).didResetHard = true ↔
      ((cmdUpdateApis env).didCompleteLoop = true ∧
        (env.apiRootFlag = "" ∨ env.apiRepoClean = .ok true)) := by
  unfold cmdUpdateApis RunOutcome.abort
  rcases ha : apiRepoPhase env with e | hard
  · simp only [ha]
    split_ifs <;> simp
  · have hb := apiRepoPhase_ok env hard ha
    simp only [ha]
    rcases hl : langRepoPhase env with e | u
    · simp only [hl]; split_ifs <;> simp
    · simp only [hl]
      rcases hs : env.loadStateResult with e2 | apis
      · simp only [hs]; split_ifs <;> simp
      · simp only [hs]
        rcases hh : env.headHashBefore with e3 | h0
        · simp only [hh]; split_ifs <;> simp
        · simp only [hh]
          rcases hr : runApis env.flagAPIPath apis with e4 | u4
          · simp only [hr]; split_ifs <;> simp
          · simp only [hr]
            split_ifs <;>
              simp [finishRun_didResetHard, finishRun_didCompleteLoop, hb]

/-- C4 (counterexample). A run in which the corpus checkout was
opened from `-api-root` and found clean before the run, but in which the
first API's `container.Generate` call fails: the run returns that error
and `ResetHard` is never invoked, although the claim requires a reset
regardless of success or failure. -/
theorem cmdUpdateApis_noReset_on_failure :
    ({ languageSupported := true, flagPush := false, gitHubToken := "",
       tmpRootOk := true, apiRootFlag := "/work/googleapis", cloneApiOk := true,
       openApiOk := true, apiRepoClean := .ok true, outputFlag := "out",
       mkdirOutputOk := true, repoRootFlag := "", cloneLangOk := true,
       openLangOk := true, langCheckClean := .ok true,
       loadStateResult := .ok [(⟨"google/cloud/speech/v1", .normal, "basehash"⟩,
         { commitsResult := .ok [⟨"newhash", "feat: x"⟩], mkdirOk := true,
           generateOk := false, cleanOk := true, copyOk := true, saveOk := true,
           commitOk := true, buildOk := true, isCleanResult := .ok true })],
       copyInputOk := true, headHashBefore := .ok "h1", flagAPIPath := "",
       headHashAfter := .ok "h1", pushBranchOk := true,
       pullRequestOk := true : RunEnv }.apiRootFlag ≠ "") ∧
    ({ languageSupported := true, flagPush := false, gitHubToken := "",
       tmpRootOk := true, apiRootFlag := "/work/googleapis", cloneApiOk := true,
       openApiOk := true, apiRepoClean := .ok true, outputFlag := "out",
       mkdirOutputOk := true, repoRootFlag := "", cloneLangOk := true,
       openLangOk := true, langCheckClean := .ok true,
       loadStateResult := .ok [(⟨"google/cloud/speech/v1", .normal, "basehash"⟩,
         { commitsResult := .ok [⟨"newhash", "feat: x"⟩], mkdirOk := true,
           generateOk := false, cleanOk := true, copyOk := true, saveOk := true,
           commitOk := true, buildOk := true, isCleanResult := .ok true })],
       copyInputOk := true, headHashBefore := .ok "h1", flagAPIPath := "",
       headHashAfter := .ok "h1", pushBranchOk := true,
       pullRequestOk := true : RunEnv }.apiRepoClean = .ok true) ∧
    (cmdUpdateApis
      { languageSupported := true, flagPush := false, gitHubToken := "",
        tmpRootOk := true, apiRootFlag := "/work/googleapis", cloneApiOk := true,
        openApiOk := true, apiRepoClean := .ok true, outputFlag := "out",
        mkdirOutputOk := true, repoRootFlag := "", cloneLangOk := true,
        openLangOk := true, langCheckClean := .ok true,
        loadStateResult := .ok [(⟨"google/cloud/speech/v1", .normal, "basehash"⟩,
          { commitsResult := .ok [⟨"newhash", "feat: x"⟩], mkdirOk := true,
            generateOk := false, cleanOk := true, copyOk := true, saveOk := true,
            commitOk := true, buildOk := true, isCleanResult := .ok true })],
        copyInputOk := true, headHashBefore := .ok "h1", flagAPIPath := "",
        headHashAfter := .ok "h1", pushBranchOk := true,
        pullRequestOk := true }).result = .error (.apiErr .generateErr) ∧
    (cmdUpdateApis
      { languageSupported := true, flagPush := false, gitHubToken := "",
        tmpRootOk := true, apiRootFlag := "/work/googleapis", cloneApiOk := true,
        openApiOk := true, apiRepoClean := .ok true, outputFlag := "out",
        mkdirOutputOk := true, repoRootFlag := "", cloneLangOk := true,
        openLangOk := true, langCheckClean := .ok true,
        loadStateResult := .ok [(⟨"google/cloud/speech/v1", .normal, "basehash"⟩,
          { commitsResult := .ok [⟨"newhash", "feat: x"⟩], mkdirOk := true,
            generateOk := false, cleanOk := true, copyOk := true, saveOk := true,
            commitOk := true, buildOk := true, isCleanResult := .ok true })],
        copyInputOk := true, headHashBefore := .ok "h1", flagAPIPath := "",
        headHashAfter := .ok "h1", pushBranchOk := true,
        pullRequestOk := true }).didResetHard = false :=
  ⟨by simp, rfl, rfl, rfl⟩

/-! ## Configuration model (`internal/config/config.go`)

`Library` and `Default` are modelled with the fields consulted by
`runGenerate`/`applyDefaults`/`fillDefaults`: name, APIs, keep, output,
release level, transport, skip-generate and veneer flags.  The
language-specific sub-records (`Rust`, `Dart`, `Python`, `Java`, `Go`)
and the remaining metadata fields (version, copyright year, roots, …) are
not modelled: the sub-record merge helpers (`fillRust`, `fillDart`,
`fillPython`, `fillJava`) mutate only those sub-records (plus Dart's
version fill), never the fields below. -/

/-- Models `config.API` (config.go line 228). -/
structure API where
  path : String
  deriving Repr, DecidableEq

/-- Models `config.Library` (config.go line 156), modelled fields only. -/
structure Library where
  name : String
  apis : List API
  keep : List String
  output : String
  releaseLevel : String
  transport : String
  skipGenerate : Bool
  veneer : Bool
  deriving Repr, DecidableEq

/-- Models `config.Default` (config.go line 124), modelled fields only. -/
structure Default where
  keep : List String
  output : String
  releaseLevel : String
  transport : String
  deriving Repr, DecidableEq

/-- Models `config.Source` (config.go line 103). -/
structure Source where
  branch : String
  commit : String
  dir : String
  sha256 : String
  subpath : String
  deriving Repr, DecidableEq

/-- Models `config.Sources` (config.go line 85); only the googleapis source is
consulted by the code modelled here (the other corpora feed the rust/dart
source bundle, which is abstracted by an oracle). -/
structure Sources where
  googleapis : Option Source
  deriving Repr, DecidableEq

/-- Models `config.Config` (config.go line 22), modelled fields only.  A nil Go
`Default` pointer is modelled by the zero-valued record: the two agree on
every modelled field (appending an empty keep list and filling from empty
strings are no-ops); the nil-pointer panic that `applyDefaults` line 672
would hit on a nil `Default` with an empty library output is therefore
outside the model. -/
structure Config where
  language : String
  sources : Option Sources
  defaults : Default
  libraries : List Library
  deriving Repr, DecidableEq

/-- Language identifiers (`internal/librarian`, librarian.go lines 320-327). -/
def languageDart : String := "dart"

def languageFake : String := "fake"

def languageGo : String := "go"

def languageJava : String := "java"

def languageRust : String := "rust"

def languagePython : String := "python"

/-- Models `filepath.Join` on two components, as used by the per-language output
conventions: empty components are dropped. -/
def joinPath (a b : String) : String :=
  if a = "" then b else if b = "" then a else a ++ "/" ++ b

/-- Modelled from the spec: `internal/librarian/dart` is not in this
snapshot.  §4.1: output is "computed from a per-language naming
convention applied to (library name, first API path, default output
root)"; `TestDefaultOutput` fixes
`dart.DefaultOutput("google-cloud-secretmanager-v1", "packages") =
"packages/google-cloud-secretmanager-v1"`. -/
def dartDefaultOutput (name defaultOut : String) : String :=
  joinPath defaultOut name

/-- Modelled from the spec: `internal/librarian/rust` is not in this
snapshot.  `TestDefaultOutput` fixes
`rust.DefaultOutput("google/cloud/secretmanager/v1", "generated") =
"generated/cloud/secretmanager/v1"`: the api path loses its leading
`google/` component. -/
def rustDefaultOutput (api defaultOut : String) : String :=
  joinPath defaultOut (if api.startsWith "google/" then api.drop 7 else api)

/-- Modelled from the spec: `internal/librarian/python` is not in this
snapshot.  `TestDefaultOutput` fixes
`python.DefaultOutputByName("google-cloud-secretmanager-v1", "packages")
= "packages/google-cloud-secretmanager-v1"`. -/
def pythonDefaultOutputByName (name defaultOut : String) : String :=
  joinPath defaultOut name

/-- Modelled from the spec: `dart.DeriveAPIPath` is not in this snapshot.
§4.1: "derived from the library name using a per-language slug convention
(default: replace `-` with `/`)"; modelled with the default convention. -/
def dartDeriveAPIPath (name : String) : String := name.replace "-" "/"

/-- Modelled from the spec: `rust.DeriveAPIPath` is not in this snapshot;
modelled with the default slug convention, as for dart. -/
def rustDeriveAPIPath (name : String) : String := name.replace "-" "/"

/-- Modelled from the spec: `internal/librarian/golang` is not in this
snapshot.  §4.1 specifies that the per-language fill touches only the
language-specific sub-record, so on the modelled fields `golang.Fill` is
the identity. -/
def golangFill (lib : Library) : Library := lib

/-- Models `defaultOutput` (generate.go lines 259-270). -/
def defaultOutput (language name api defaultOut : String) : String :=
  if language = languageDart then dartDefaultOutput name defaultOut
  else if language = languageRust then rustDefaultOutput api defaultOut
  else if language = languagePython then pythonDefaultOutputByName name defaultOut
  else defaultOut

/-- Models `deriveAPIPath` (generate.go lines 272-281). -/
def deriveAPIPath (language name : String) : String :=
  if language = languageDart then dartDeriveAPIPath name
  else if language = languageRust then rustDeriveAPIPath name
  else name.replace "-" "/"

/-- Models `shouldGenerate` (generate.go lines 283-288). -/
def shouldGenerate (lib : Library) (all : Bool) (libraryName : String) : Bool :=
  if lib.skipGenerate then false else (all || lib.name == libraryName)

/-- Models `fillDefaults` (the defaults file, lines 486-515), restricted to the
modelled fields: workspace keep entries are appended to the library's
own, and output, release level and transport are filled only when unset.
The language sub-record branches (lines 502-513) touch no modelled
field. -/
def fillDefaults (lib : Library) (d : Default) : Library :=
  let lib := { lib with keep := lib.keep ++ d.keep }
  let lib := if lib.output = "" then { lib with output := d.output } else lib
  let lib := if lib.releaseLevel = "" then { lib with releaseLevel := d.releaseLevel } else lib
  if lib.transport = "" then { lib with transport := d.transport } else lib

/-- Models `fillLibraryDefaults` (generate_test.go definitions file, lines
690-697): only the Go language has a fill step; it never fails. -/
def fillLibraryDefaults (language : String) (lib : Library) : Library :=
  if language = languageGo then golangFill lib else lib

/-- Errors of the one-shot generate path, one per `errors.New` /
`fmt.Errorf` site in generate.go. -/
inductive GenErr where
  /-- Models `errEmptySources` (line 42). -/
  | emptySources
  /-- The error `"must specify --googleapis flag"` (line 129). -/
  | missingGoogleapis
  /-- Models `fetch.RepoDir` failure (line 134). -/
  | fetchErr
  /-- Models `source.FetchRustDartSources` failure (line 143). -/
  | fetchRustDartErr
  /-- The error `"veneer %q requires an explicit output path"` (applyDefaults line 670). -/
  | veneerNeedsOutput (name : String)
  /-- The error `"no libraries to generate: all libraries have skip_generate set"` (line 100). -/
  | noLibrariesAllSkipped
  /-- Models `errSkipGenerate` wrapped with the name (line 104). -/
  | skipGenerate (name : String)
  /-- Models `ErrLibraryNotFound` wrapped with the name (line 107). -/
  | libraryNotFound (name : String)
  /-- a failure inside `cleanLibraries` (line 113). -/
  | cleanErr
  /-- a failure inside `generateLibraries` (line 116). -/
  | generateErr
  /-- a failure inside `formatLibraries` (line 119). -/
  | formatErr
  /-- a failure inside `postGenerate` (line 122). -/
  | postGenerateErr
  deriving Repr, DecidableEq

/-- Models `applyDefaults` (generate_test.go definitions file, lines 656-675). -/
def applyDefaults (language : String) (lib : Library) (defaults : Default) :
    Except GenErr Library :=
  -- lines 658-660: ensure at least one API record
  let lib := if lib.apis = [] then { lib with apis := [⟨""⟩] } else lib
  -- lines 661-667: derive empty API paths for non-veneers
  let lib :=
    if ¬ lib.veneer then
      { lib with apis := lib.apis.map (fun a =>
          if a.path = "" then ⟨deriveAPIPath language lib.name⟩ else a) }
    else lib
  -- lines 668-673: output derivation
  if lib.output = "" then
    if lib.veneer then .error (.veneerNeedsOutput lib.name)
    else
      let lib := { lib with
        output := defaultOutput language lib.name (lib.apis.headD ⟨""⟩).path defaults.output }
      .ok (fillLibraryDefaults language (fillDefaults lib defaults))
  else .ok (fillLibraryDefaults language (fillDefaults lib defaults))

/-- Results of the external calls made by `runGenerate`.  The four
pipeline phases (clean, generate, format, post-generate) delegate to
per-language backends (for dart and rust, cleaning goes through the
keep-list cleaner modelled further below); here each whole phase is one
oracle bit, which is all the claims about this path consult. -/
structure GenEnv where
  /-- Models `fetch.RepoDir` (line 134). -/
  fetchOk : Bool
  /-- directory returned by a successful fetch. -/
  fetchDir : String
  /-- Models `source.FetchRustDartSources` (line 143). -/
  fetchRustDartOk : Bool
  /-- Models `cleanLibraries` (line 113). -/
  cleanOk : Bool
  /-- Models `generateLibraries` (line 116). -/
  generateOk : Bool
  /-- Models `formatLibraries` (line 119). -/
  formatOk : Bool
  /-- Models `postGenerate` (line 122). -/
  postGenerateOk : Bool
  deriving Repr, DecidableEq

/-- Models `LoadSources` (generate.go lines 126-151). -/
def loadSources (env : GenEnv) (language : String) (sources : Sources) :
    Except GenErr String :=
  match sources.googleapis with
  | none => .error .missingGoogleapis
  | some g =>
    match (if g.dir ≠ "" then .ok g.dir
           else if ¬ env.fetchOk then .error GenErr.fetchErr
           else .ok env.fetchDir : Except GenErr String) with
    | .error e => .error e
    | .ok dir =>
      if language = languageRust ∨ language = languageDart then
        if ¬ env.fetchRustDartOk then .error .fetchRustDartErr else .ok dir
      else .ok dir

/-- The filter-and-prepare loop of `runGenerate` (lines 87-97). -/
def prepareLibraries (language : String) (defaults : Default) (all : Bool)
    (libraryName : String) : List Library → Except GenErr (List Library)
  | [] => .ok []
  | lib :: rest =>
    if ¬ shouldGenerate lib all libraryName then
      prepareLibraries language defaults all libraryName rest
    else
      match applyDefaults language lib defaults with
      | .error e => .error e
      | .ok prepared =>
        match prepareLibraries language defaults all libraryName rest with
        | .error e => .error e
        | .ok others => .ok (prepared :: others)

/-- Models `runGenerate` (generate.go lines 75-123). -/
def runGenerate (env : GenEnv) (cfg : Config) (all : Bool) (libraryName : String) :
    Except GenErr Unit :=
  -- lines 76-78
  match cfg.sources with
  | none => .error .emptySources
  | some sources =>
    -- lines 80-83
    match loadSources env cfg.language sources with
    | .error e => .error e
    | .ok _ =>
      -- lines 87-97
      match prepareLibraries cfg.language cfg.defaults all libraryName cfg.libraries with
      | .error e => .error e
      | .ok libraries =>
        -- lines 98-108: distinguish "all skipped", "skip_generate" and "not found"
        if libraries = [] then
          if all then .error .noLibrariesAllSkipped
          else if cfg.libraries.any (fun lib => lib.name == libraryName) then
            .error (.skipGenerate libraryName)
          else .error (.libraryNotFound libraryName)
        else
          -- lines 113-122: the four phases, in order, aborting on failure
          if ¬ env.cleanOk then .error .cleanErr
          else if ¬ env.generateOk then .error .generateErr
          else if ¬ env.formatOk then .error .formatErr
          else if ¬ env.postGenerateOk then .error .postGenerateErr
          else .ok ()

lemma prepareLibraries_none (language : String) (defaults : Default) (name : String)
    (libs : List Library)
    (h : ∀ lib ∈ libs, shouldGenerate lib false name = false) :
    prepareLibraries language defaults false name libs = .ok [] := by
  induction libs with
  | nil => rfl
  | cons lib rest ih =>
      unfold prepareLibraries
      rw [h lib (by simp), if_pos (by simp)]
      exact ih fun l hl => h l (by simp [hl])

/-- C8. With the sources loading successfully and no `--all` flag: if
some configured library carries the requested name but every such library
has `skip_generate` set, `runGenerate` fails with the skip-generate
error; if no configured library carries the name, it fails with the
library-not-found error; and these are distinct error values. -/
theorem runGenerate_skip_vs_notFound (env : GenEnv) (cfg : Config) (name : String)
    (s : Sources) (hs : cfg.sources = some s)
    (d : String) (hload : loadSources env cfg.language s = .ok d) :
    ((∃ lib ∈ cfg.libraries, lib.name = name) →
      (∀ lib ∈ cfg.libraries, lib.name = name → lib.skipGenerate = true) →
      runGenerate env cfg false name = .error (.skipGenerate name)) ∧
    ((∀ lib ∈ cfg.libraries, lib.name ≠ name) →
      runGenerate env cfg false name = .error (.libraryNotFound name)) ∧
    GenErr.skipGenerate name ≠ GenErr.libraryNotFound name := by
  refine ⟨?_, ?_, by simp⟩
  · rintro ⟨lib0, hmem, hname⟩ hall
    have hnone : ∀ lib ∈ cfg.libraries, shouldGenerate lib false name = false := by
      intro lib hl
      unfold shouldGenerate
      by_cases hskip : lib.skipGenerate = true
      · simp [hskip]
      · have hne : lib.name ≠ name := fun he => hskip (hall lib hl he)
        simp [hskip, hne]
    have hany : cfg.libraries.any (fun lib => lib.name == name) = true :=
      List.any_eq_true.mpr ⟨lib0, hmem, by simp [hname]⟩
    unfold runGenerate
    simp only [hs, hload, prepareLibraries_none _ _ _ _ hnone]
    simp [hany]
  · intro hall
    have hnone : ∀ lib ∈ cfg.libraries, shouldGenerate lib false name = false := by
      intro lib hl
      unfold shouldGenerate
      by_cases hskip : lib.skipGenerate = true
      · simp [hskip]
      · simp [hskip, hall lib hl]
    have hany : cfg.libraries.any (fun lib => lib.name == name) = false := by
      rw [Bool.eq_false_iff]
      intro hcontra
      rcases List.any_eq_true.mp hcontra with ⟨lib, hl, he⟩
      exact hall lib hl (by simpa using he)
    unfold runGenerate
    simp only [hs, hload, prepareLibraries_none _ _ _ _ hnone]
    simp [hany]

/-- A concrete environment and configuration exercising the
skip-generate and not-found paths of `runGenerate`. -/
def sampleGenEnv : GenEnv := ⟨true, "", true, true, true, true, true⟩

/-- See `sampleGenEnv`: one library named `secretmanager` with
`skip_generate: true`, sources pointing at a local googleapis dir. -/
def sampleGenConfig : Config :=
  ⟨"fake", some ⟨some ⟨"", "", "/tmp/googleapis", "", ""⟩⟩, ⟨[], "", "", ""⟩,
    [⟨"secretmanager", [⟨"google/cloud/secretmanager/v1"⟩], [], "out", "", "",
      true, false⟩]⟩

theorem runGenerate_skip_vs_notFound_witness :
    runGenerate sampleGenEnv sampleGenConfig false "secretmanager"
        = .error (.skipGenerate "secretmanager") ∧
    runGenerate sampleGenEnv sampleGenConfig false "speech"
        = .error (.libraryNotFound "speech") :=
  ⟨(runGenerate_skip_vs_notFound sampleGenEnv sampleGenConfig "secretmanager"
        ⟨some ⟨"", "", "/tmp/googleapis", "", ""⟩⟩ rfl "/tmp/googleapis" rfl).1
      ⟨⟨"secretmanager", [⟨"google/cloud/secretmanager/v1"⟩], [], "out", "", "",
          true, false⟩, by simp [sampleGenConfig], rfl⟩
      (by intro lib hl he
          simp [sampleGenConfig] at hl
          simp [hl]),
   (runGenerate_skip_vs_notFound sampleGenEnv sampleGenConfig "speech"
        ⟨some ⟨"", "", "/tmp/googleapis", "", ""⟩⟩ rfl "/tmp/googleapis" rfl).2.1
      (by intro lib hl
          simp [sampleGenConfig] at hl
          simp [hl])⟩

lemma joinPath_eq_empty (a b : String) (h : joinPath a b = "") : a = "" := by
  unfold joinPath at h
  split_ifs at h with h1 h2
  · exact h1
  · exact h
  · have hlen := congrArg String.length h
    simp only [String.length_append] at hlen
    have hone : ("/").length = 1 := rfl
    have hzero : ("").length = 0 := rfl
    omega

lemma defaultOutput_eq_empty (language name api out : String)
    (h : defaultOutput language name api out = "") : out = "" := by
  unfold defaultOutput at h
  split_ifs at h
  · exact joinPath_eq_empty _ _ h
  · exact joinPath_eq_empty _ _ h
  · exact joinPath_eq_empty _ _ h
  · exact h

lemma fillDefaults_output (lib : Library) (d : Default) :
    (fillDefaults lib d).output = if lib.output = "" then d.output else lib.output := by
  obtain ⟨nm, apis, kp, out, rl, tr, sg, vn⟩ := lib
  simp only [fillDefaults]
  split_ifs <;> rfl

lemma fillLibraryDefaults_output (language : String) (lib : Library) :
    (fillLibraryDefaults language lib).output = lib.output := by
  unfold fillLibraryDefaults golangFill
  split_ifs <;> rfl

/-- If a library's output was set to the derived value, the later default
fill steps do not change it: when the derived value is empty, the default
output root must itself be empty. -/
lemma derivedOutput_fill (language nm firstPath : String) (defaults : Default)
    (l : Library) (hl : l.output = defaultOutput language nm firstPath defaults.output) :
    (fillLibraryDefaults language (fillDefaults l defaults)).output =
      defaultOutput language nm firstPath defaults.output := by
  rw [fillLibraryDefaults_output, fillDefaults_output, hl]
  by_cases hz : defaultOutput language nm firstPath defaults.output = ""
  · rw [if_pos hz, hz]
    exact defaultOutput_eq_empty _ _ _ _ hz
  · rw [if_neg hz]

/-- C9. For a library with no explicit output path: if it is a
veneer, `applyDefaults` fails with the veneer configuration error;
otherwise it succeeds and the resolved output is the per-language naming
convention (`defaultOutput`) applied to the library name, its first API
path (derived from the name when absent or empty) and the default output
root. -/
theorem applyDefaults_veneer_or_derived (language : String) (lib : Library)
    (defaults : Default) (hout : lib.output = "") :
    (lib.veneer = true →
      applyDefaults language lib defaults = .error (.veneerNeedsOutput lib.name)) ∧
    (lib.veneer = false →
      ∃ r, applyDefaults language lib defaults = .ok r ∧
        r.output = defaultOutput language lib.name
          (match lib.apis with
           | [] => deriveAPIPath language lib.name
           | a :: _ => if a.path = "" then deriveAPIPath language lib.name else a.path)
          defaults.output) := by
  obtain ⟨nm, apis, kp, out, rl, tr, sg, vn⟩ := lib
  subst hout
  constructor
  · intro hv
    subst hv
    rcases apis with _ | ⟨a, rest⟩ <;> simp [applyDefaults]
  · intro hv
    subst hv
    rcases apis with _ | ⟨a, rest⟩
    · refine ⟨fillLibraryDefaults language (fillDefaults
          ⟨nm, [⟨deriveAPIPath language nm⟩], kp,
            defaultOutput language nm (deriveAPIPath language nm) defaults.output,
            rl, tr, sg, false⟩ defaults), ?_, ?_⟩
      · simp [applyDefaults]
      · exact derivedOutput_fill language nm _ defaults _ rfl
    · by_cases hpath : a.path = ""
      · refine ⟨fillLibraryDefaults language (fillDefaults
            ⟨nm, (⟨deriveAPIPath language nm⟩ : API) ::
                rest.map (fun x => if x.path = "" then ⟨deriveAPIPath language nm⟩ else x),
              kp, defaultOutput language nm (deriveAPIPath language nm) defaults.output,
              rl, tr, sg, false⟩ defaults), ?_, ?_⟩
        · simp [applyDefaults, hpath]
        · dsimp only
          rw [if_pos hpath]
          exact derivedOutput_fill language nm _ defaults _ rfl
      · refine ⟨fillLibraryDefaults language (fillDefaults
            ⟨nm, a ::
                rest.map (fun x => if x.path = "" then ⟨deriveAPIPath language nm⟩ else x),
              kp, defaultOutput language nm a.path defaults.output,
              rl, tr, sg, false⟩ defaults), ?_, ?_⟩
        · simp [applyDefaults, hpath]
        · dsimp only
          rw [if_neg hpath]
          exact derivedOutput_fill language nm _ defaults _ rfl

theorem applyDefaults_veneer_or_derived_witness :
    applyDefaults "dart" ⟨"secretmanager", [], [], "", "", "", false, true⟩
        ⟨[], "packages", "", ""⟩ = .error (.veneerNeedsOutput "secretmanager") ∧
    (∃ r, applyDefaults "dart"
        ⟨"secretmanager", [⟨"google/cloud/secretmanager/v1"⟩], [], "", "", "",
          false, false⟩ ⟨[], "packages", "", ""⟩ = .ok r ∧
      r.output = defaultOutput "dart" "secretmanager" "google/cloud/secretmanager/v1"
        "packages") :=
  ⟨(applyDefaults_veneer_or_derived "dart"
      ⟨"secretmanager", [], [], "", "", "", false, true⟩ ⟨[], "packages", "", ""⟩ rfl).1 rfl,
   (applyDefaults_veneer_or_derived "dart"
      ⟨"secretmanager", [⟨"google/cloud/secretmanager/v1"⟩], [], "", "", "", false, false⟩
      ⟨[], "packages", "", ""⟩ rfl).2 rfl⟩

/-! ## Keep-list cleaner (`checkAndClean`, `check`, `clean`)

The cleaned directory is modelled as a flat list of entries, each a path
(list of components, relative to the cleaned root, which itself is not an
entry) plus a directory flag.  `filepath.WalkDir` visits paths in
lexicographic order, so parents are collected before their children and
the "reverse order (bottom-up)" removal loop processes descendants before
ancestors; the model collects candidate directories by sorting with the
lexicographic order `pathLe`.  `os.Remove` on a directory succeeds only
when it is empty — a directory with any remaining descendant entry is
left in place and the error is swallowed, exactly as in the source.  Both
passes also log the paths they delete, so "performs no deletions" is an
observable fact of a run. -/

/-- One file-system object inside the cleaned directory. -/
structure Entry where
  path : List String
  isDir : Bool
  deriving Repr, DecidableEq

/-- Control directories skipped by both walks (part_006 lines 78, 108). -/
def skipName (n : String) : Bool :=
  n == ".git" || n == ".github" || n == ".gemini"

/-- Returns `true` when a proper ancestor directory of `p` is a control
directory: the walk never descends into those, so nothing under them is
visited, deleted or collected. -/
def underSkipDir : List String → Bool
  | [] => false
  | [_] => false
  | n :: rest => skipName n || underSkipDir rest

/-- A proper-prefix test on paths (`p` is a strict ancestor of `q`). -/
def properPre (p q : List String) : Bool :=
  p.isPrefixOf q && p != q

/-- Models `os.Stat(filepath.Join(dir, k))` succeeds: the root (empty relative
path) always exists, other paths exist when some entry carries them. -/
def existsPath (fs : List Entry) (p : List String) : Bool :=
  p == [] || fs.any (fun e => e.path == p)

/-- A regular file survives pass 1 (part_006 lines 73-91) when it lies in
a skipped control subtree (never visited), is the configuration file
`librarian.yaml` at the root, or is in the keep set. -/
def keepFile (keepSet : List (List String)) (p : List String) : Bool :=
  underSkipDir p || p == ["librarian.yaml"] || keepSet.contains p

/-- Pass 1 (part_006 lines 72-94): delete every visited regular file not
protected by `keepFile`; directories are untouched.  Returns the
surviving entries and the deleted paths. -/
def removeFiles (keepSet : List (List String)) (fs : List Entry) :
    List Entry × List (List String) :=
  ((fs.filter fun e => e.isDir || keepFile keepSet e.path),
   (fs.filter fun e => !(e.isDir || keepFile keepSet e.path)).map Entry.path)

/-- A directory is collected by the second walk (part_006 lines 102-119)
when it is visited (not the root, not in a skipped subtree) and is not a
control directory itself. -/
def collectedDir (e : Entry) : Bool :=
  e.isDir && e.path != [] && !underSkipDir e.path && !skipName (e.path.getLastD "")

/-- Character order by code point. -/
def charLt (a b : Char) : Bool := Nat.blt a.toNat b.toNat

/-- Lexicographic order on character lists. -/
def charsLt : List Char → List Char → Bool
  | [], [] => false
  | [], _ :: _ => true
  | _ :: _, [] => false
  | a :: as, b :: bs => charLt a b || (a == b && charsLt as bs)

/-- Lexicographic (code-point) order on component names, standing in for
the byte-wise string order of Go's sorted directory listings. -/
def strLt (a b : String) : Bool := charsLt a.data b.data

/-- Lexicographic order on paths; `filepath.WalkDir` visits in this order
(within a directory, entries sorted by name; a directory before its
contents). -/
def pathLe : List String → List String → Bool
  | [], _ => true
  | _ :: _, [] => false
  | a :: as, b :: bs => if a = b then pathLe as bs else strLt a b

/-- Models `os.Remove` on directory `p` (part_006 line 134): succeeds only when
an entry at `p` exists, is a directory, and nothing lies strictly below
it; otherwise the file system is unchanged (the error is swallowed). -/
def removeEmptyDir (fs : List Entry) (p : List String) : List Entry × Bool :=
  if (fs.any fun e => e.path == p && e.isDir) &&
      !(fs.any fun e => properPre p e.path) then
    ((fs.filter fun e => e.path != p), true)
  else (fs, false)

/-- The removal loop of pass 2 (part_006 lines 122-135): attempt each
candidate directory in order, skipping keep-set members; non-empty
directories survive.  Returns the surviving entries and the removed
paths, in removal order. -/
def removeDirs (keepSet : List (List String)) :
    List Entry → List (List String) → List Entry × List (List String)
  | fs, [] => (fs, [])
  | fs, q :: rest =>
    if keepSet.contains q then removeDirs keepSet fs rest
    else
      ((removeDirs keepSet (removeEmptyDir fs q).1 rest).1,
       (if (removeEmptyDir fs q).2 then [q] else []) ++
         (removeDirs keepSet (removeEmptyDir fs q).1 rest).2)

/-- Insertion into a `pathLe`-sorted list (sorting helper). -/
def insertLe (x : List String) : List (List String) → List (List String)
  | [] => [x]
  | y :: ys => if pathLe x y then x :: y :: ys else y :: insertLe x ys

/-- Insertion sort by `pathLe`: the order in which `filepath.WalkDir`
visits the directory entries. -/
def sortLe : List (List String) → List (List String)
  | [] => []
  | x :: xs => insertLe x (sortLe xs)

/-- Models `clean` (part_006 lines 71-138): pass 1 removes unprotected files;
pass 2 collects candidate directories in walk order and attempts removal
in reverse (deepest first). -/
def clean (fs : List Entry) (keepSet : List (List String)) :
    List Entry × List (List String) :=
  let p1 := removeFiles keepSet fs
  let dirs := sortLe ((p1.1.filter collectedDir).map Entry.path)
  let p2 := removeDirs keepSet p1.1 dirs.reverse
  (p2.1, p1.2 ++ p2.2)

/-- The state of the path handed to `checkAndClean`. -/
inductive Target where
  | missing
  | nonDir
  | dir (fs : List Entry)
  deriving Repr, DecidableEq

/-- Errors of `checkAndClean`, one per site. -/
inductive CleanErr where
  /-- The error `"%q is not a directory"` (part_006 line 48). -/
  | notDirectory
  /-- The error `"keep file %q does not exist"` (part_006 line 54). -/
  | keepMissing (k : List String)
  /-- the `lstat` error `filepath.WalkDir` hands to the callback when the
  root does not exist, returned by `clean`'s first walk (line 74). -/
  | walkRootErr
  deriving Repr, DecidableEq

/-- Models `check` (part_006 lines 39-67): a missing directory yields a nil keep
set and **no error** (lines 42-44); a non-directory is an error; every
keep entry must exist.  Paths are already relative component lists, so
the `filepath.Rel` canonicalisation is the identity here. -/
def check (target : Target) (keep : List (List String)) :
    Except CleanErr (List (List String)) :=
  match target with
  | .missing => .ok []
  | .nonDir => .error .notDirectory
  | .dir fs =>
    match keep.find? (fun k => !(existsPath fs k)) with
    | some k => .error (.keepMissing k)
    | none => .ok keep

/-- Models `checkAndClean` (part_006 lines 28-34): `check`, then `clean`.  When
the directory is missing, `check` succeeds with a nil keep set but
`clean`'s `filepath.WalkDir` immediately receives the root `lstat` error
and returns it (the `.nonDir` arm is unreachable, since `check` has
already failed there). -/
def checkAndClean (target : Target) (keep : List (List String)) :
    Except CleanErr (List Entry × List (List String)) :=
  match check target keep with
  | .error e => .error e
  | .ok keepSet =>
    match target with
    | .missing => .error .walkRootErr
    | .nonDir => .error .notDirectory
    | .dir fs => .ok (clean fs keepSet)

/-- C5. The claim (and the design document, §4.2) say a missing
target directory is "nothing to clean" — success, no-op — and `check`
indeed special-cases `fs.ErrNotExist` to return a nil keep set with no
error; but `checkAndClean` then still calls `clean`, whose
`filepath.WalkDir` receives the root `lstat` error and returns it, so the
call fails instead of succeeding. -/
theorem checkAndClean_missing_dir (keep : List (List String)) :
    checkAndClean .missing keep = .error .walkRootErr := rfl

/-! ### Order lemmas for the removal pass -/

lemma charLt_irrefl (a : Char) : charLt a a = false := by
  rw [charLt, Bool.eq_false_iff]
  intro h
  rw [Nat.blt_eq] at h
  exact Nat.lt_irrefl _ h

lemma charLt_trans (a b c : Char) (h1 : charLt a b = true) (h2 : charLt b c = true) :
    charLt a c = true := by
  simp only [charLt, Nat.blt_eq] at h1 h2 ⊢
  omega

lemma charLt_total (a b : Char) (h : a ≠ b) : charLt a b = true ∨ charLt b a = true := by
  have hn : a.toNat ≠ b.toNat := fun he => h (Char.eq_of_val_eq (UInt32.toNat.inj he))
  simp only [charLt, Nat.blt_eq]
  omega

lemma charsLt_irrefl : ∀ l, charsLt l l = false
  | [] => rfl
  | a :: as => by simp [charsLt, charLt_irrefl, charsLt_irrefl as]

lemma charsLt_trans : ∀ x y z : List Char,
    charsLt x y = true → charsLt y z = true → charsLt x z = true
  | [], [], _, h1, _ => by simp [charsLt] at h1
  | [], _ :: _, [], _, h2 => by simp [charsLt] at h2
  | [], _ :: _, _ :: _, _, _ => rfl
  | _ :: _, [], _, h1, _ => by simp [charsLt] at h1
  | _ :: _, _ :: _, [], _, h2 => by simp [charsLt] at h2
  | a :: as, b :: bs, c :: cs, h1, h2 => by
    simp only [charsLt, Bool.or_eq_true, Bool.and_eq_true, beq_iff_eq] at h1 h2 ⊢
    rcases h1 with h1 | ⟨heq1, h1⟩
    · rcases h2 with h2 | ⟨heq2, h2⟩
      · exact Or.inl (charLt_trans a b c h1 h2)
      · exact Or.inl (heq2 ▸ h1)
    · rcases h2 with h2 | ⟨heq2, h2⟩
      · exact Or.inl (by rw [heq1]; exact h2)
      · exact Or.inr ⟨heq1.trans heq2, charsLt_trans as bs cs h1 h2⟩

lemma charsLt_total : ∀ x y : List Char, x ≠ y → charsLt x y = true ∨ charsLt y x = true
  | [], [], h => absurd rfl h
  | [], _ :: _, _ => Or.inl rfl
  | _ :: _, [], _ => Or.inr rfl
  | a :: as, b :: bs, h => by
    by_cases hab : a = b
    · subst hab
      have hne : as ≠ bs := fun he => h (by rw [he])
      rcases charsLt_total as bs hne with h1 | h1
      · exact Or.inl (by simp [charsLt, h1])
      · exact Or.inr (by simp [charsLt, h1])
    · rcases charLt_total a b hab with h1 | h1
      · exact Or.inl (by simp [charsLt, h1])
      · exact Or.inr (by simp [charsLt, h1])

lemma strLt_trans (a b c : String) (h1 : strLt a b = true) (h2 : strLt b c = true) :
    strLt a c = true := charsLt_trans _ _ _ h1 h2

lemma strLt_irrefl (a : String) : strLt a a = false := charsLt_irrefl _

lemma strLt_total (a b : String) (h : a ≠ b) : strLt a b = true ∨ strLt b a = true :=
  charsLt_total _ _ fun he => h (by cases a; cases b; exact congrArg String.mk he)

lemma strLt_ne (a b : String) (h : strLt a b = true) : a ≠ b := fun he => by
  subst he
  rw [strLt_irrefl] at h
  exact Bool.false_ne_true h

lemma pathLe_total : ∀ a b : List String, pathLe a b = true ∨ pathLe b a = true
  | [], _ => Or.inl rfl
  | _ :: _, [] => Or.inr rfl
  | a :: as, b :: bs => by
    by_cases hab : a = b
    · subst hab
      simpa [pathLe] using pathLe_total as bs
    · rcases strLt_total a b hab with h | h
      · exact Or.inl (by simp [pathLe, hab, h])
      · exact Or.inr (by simp [pathLe, Ne.symm hab, h])

lemma pathLe_trans : ∀ a b c : List String,
    pathLe a b = true → pathLe b c = true → pathLe a c = true
  | [], _, _, _, _ => rfl
  | _ :: _, [], _, h1, _ => by simp [pathLe] at h1
  | _ :: _, _ :: _, [], _, h2 => by simp [pathLe] at h2
  | a :: as, b :: bs, c :: cs, h1, h2 => by
    by_cases hab : a = b <;> by_cases hbc : b = c
    · subst hab; subst hbc
      simp only [pathLe, if_pos rfl] at h1 h2 ⊢
      exact pathLe_trans as bs cs h1 h2
    · subst hab
      simp only [pathLe, if_pos rfl, if_neg hbc] at h2 ⊢
      exact h2
    · subst hbc
      simp only [pathLe, if_neg hab] at h1 ⊢
      exact h1
    · simp only [pathLe, if_neg hab, if_neg hbc] at h1 h2
      have hac : strLt a c = true := strLt_trans a b c h1 h2
      have hne : a ≠ c := fun he => by
        rw [he] at h1
        have := strLt_trans c b c h1 h2
        rw [strLt_irrefl] at this
        exact Bool.false_ne_true this
      simp [pathLe, hne, hac]

lemma properPre_not_pathLe : ∀ q p : List String,
    properPre q p = true → pathLe p q = false
  | [], p, h => by
    rcases p with _ | ⟨x, xs⟩
    · simp [properPre] at h
    · rfl
  | n :: q', p, h => by
    rcases p with _ | ⟨m, p'⟩
    · simp [properPre, List.isPrefixOf] at h
    · simp only [properPre, List.isPrefixOf, Bool.and_eq_true, beq_iff_eq,
        bne_iff_ne, ne_eq] at h
      obtain ⟨⟨hm, hpre⟩, hne⟩ := h
      subst hm
      have hne' : q' ≠ p' := fun he => hne (by rw [he])
      have : properPre q' p' = true := by
        simp [properPre, hpre, hne']
      simp only [pathLe, if_pos rfl]
      exact properPre_not_pathLe q' p' this

lemma mem_insertLe (x a : List String) (l : List (List String)) :
    a ∈ insertLe x l ↔ a = x ∨ a ∈ l := by
  induction l with
  | nil => simp [insertLe]
  | cons y ys ih =>
      unfold insertLe
      split_ifs with h
      · simp
      · rw [List.mem_cons, ih, List.mem_cons]
        tauto

lemma mem_sortLe (a : List String) (l : List (List String)) :
    a ∈ sortLe l ↔ a ∈ l := by
  induction l with
  | nil => exact Iff.rfl
  | cons x xs ih =>
      unfold sortLe
      rw [mem_insertLe, ih, List.mem_cons]

lemma pairwise_insertLe (x : List String) {l : List (List String)}
    (hp : List.Pairwise (fun a b => pathLe a b = true) l) :
    List.Pairwise (fun a b => pathLe a b = true) (insertLe x l) := by
  induction hp with
  | nil => simp [insertLe]
  | @cons y ys hrel hpt ih =>
      unfold insertLe
      split_ifs with h
      · refine List.Pairwise.cons ?_ (List.Pairwise.cons hrel hpt)
        intro z hz
        rcases List.mem_cons.mp hz with rfl | hz
        · exact h
        · exact pathLe_trans x y z h (hrel z hz)
      · refine List.Pairwise.cons ?_ ih
        intro z hz
        rcases (mem_insertLe x z ys).mp hz with rfl | hz
        · rcases pathLe_total z y with h1 | h1
          · exact absurd h1 (by simpa using h)
          · exact h1
        · exact hrel z hz

lemma pairwise_sortLe : ∀ l, List.Pairwise (fun a b => pathLe a b = true) (sortLe l)
  | [] => List.Pairwise.nil
  | x :: xs => pairwise_insertLe x (pairwise_sortLe xs)

/-! ### Preservation of kept entries and their ancestors -/

lemma removeEmptyDir_subset (fs : List Entry) (q : List String) :
    ∀ e ∈ (removeEmptyDir fs q).1, e ∈ fs := by
  unfold removeEmptyDir
  split_ifs with h
  · exact fun e he => List.mem_of_mem_filter he
  · exact fun e he => he

lemma removeEmptyDir_mem_of_ne (fs : List Entry) (q : List String) (e : Entry)
    (he : e ∈ fs) (hne : e.path ≠ q) : e ∈ (removeEmptyDir fs q).1 := by
  unfold removeEmptyDir
  split_ifs with h
  · exact List.mem_filter.mpr ⟨he, by simpa using hne⟩
  · exact he

lemma removeEmptyDir_noop_of_descendant (fs : List Entry) (q : List String) (e : Entry)
    (he : e ∈ fs) (hd : properPre q e.path = true) : removeEmptyDir fs q = (fs, false) := by
  have h2 : (fs.any fun x => properPre q x.path) = true :=
    List.any_eq_true.mpr ⟨e, he, hd⟩
  unfold removeEmptyDir
  rw [if_neg (by simp [h2])]

lemma removeDirs_subset (keepSet : List (List String)) (dirs : List (List String)) :
    ∀ (fs : List Entry) (e : Entry), e ∈ (removeDirs keepSet fs dirs).1 → e ∈ fs := by
  induction dirs with
  | nil => exact fun fs e he => he
  | cons q rest ih =>
      intro fs e he
      unfold removeDirs at he
      by_cases h : keepSet.contains q = true
      · rw [if_pos h] at he
        exact ih fs e he
      · rw [if_neg h] at he
        dsimp only at he
        exact removeEmptyDir_subset fs q e (ih _ e he)

lemma removeDirs_preserve (keepSet : List (List String)) (k : List String)
    (hk : keepSet.contains k = true) (dirs : List (List String)) :
    ∀ (fs : List Entry) (ek : Entry), ek ∈ fs → ek.path = k →
      ∀ e ∈ fs, (e.path = k ∨ properPre e.path k = true) →
      e ∈ (removeDirs keepSet fs dirs).1 := by
  induction dirs with
  | nil => exact fun fs ek hek hekp e he hprop => he
  | cons q rest ih =>
      intro fs ek hek hekp e he hprop
      unfold removeDirs
      by_cases hq : keepSet.contains q = true
      · rw [if_pos hq]
        exact ih fs ek hek hekp e he hprop
      · rw [if_neg hq]
        have hqk : q ≠ k := fun h => hq (h ▸ hk)
        by_cases hanc : properPre q k = true
        · have hnoop : removeEmptyDir fs q = (fs, false) :=
            removeEmptyDir_noop_of_descendant fs q ek hek (by rw [hekp]; exact hanc)
          dsimp only
          rw [hnoop]
          exact ih fs ek hek hekp e he hprop
        · have hekq : ek.path ≠ q := by
            rw [hekp]; exact fun h => hqk h.symm
          have heq : e.path ≠ q := by
            rcases hprop with h1 | h1
            · rw [h1]; exact fun h => hqk h.symm
            · exact fun h => hanc (h ▸ h1)
          dsimp only
          exact ih _ ek (removeEmptyDir_mem_of_ne fs q ek hek hekq) hekp e
            (removeEmptyDir_mem_of_ne fs q e he heq) hprop

lemma removeFiles_mem (keepSet : List (List String)) (fs : List Entry) (e : Entry)
    (he : e ∈ fs) (hp : (e.isDir || keepFile keepSet e.path) = true) :
    e ∈ (removeFiles keepSet fs).1 :=
  List.mem_filter.mpr ⟨he, hp⟩

/-- The proper, nonempty ancestor paths of a path, shortest first
(specification helper for the keep-list invariant). -/
def ancestors : List String → List (List String)
  | [] => []
  | [_] => []
  | n :: rest => [n] :: (ancestors rest).map (n :: ·)

/-- Well-formedness of the flat directory model: every ancestor of an
entry is itself present as a directory entry (true of any real directory
tree). -/
def prefixClosed (fs : List Entry) : Bool :=
  fs.all fun e => (ancestors e.path).all fun p =>
    fs.any fun d => d.path == p && d.isDir

lemma ancestors_properPre : ∀ k p : List String, p ∈ ancestors k → properPre p k = true
  | [], p, h => by simp [ancestors] at h
  | [x], p, h => by simp [ancestors] at h
  | n :: m :: rest, p, h => by
    rw [show ancestors (n :: m :: rest) = [n] :: (ancestors (m :: rest)).map (n :: ·)
      from rfl] at h
    rcases List.mem_cons.mp h with rfl | h
    · simp [properPre, List.isPrefixOf]
    · rcases List.mem_map.mp h with ⟨p', hp', rfl⟩
      have hrec := ancestors_properPre (m :: rest) p' hp'
      simp only [properPre, Bool.and_eq_true, List.isPrefixOf, beq_self_eq_true,
        Bool.true_and, bne_iff_ne, ne_eq] at hrec ⊢
      exact ⟨hrec.1, fun he => hrec.2 (List.cons.injEq .. ▸ he).2⟩

lemma clean_keep_entry (fs : List Entry) (keep : List (List String))
    (k : List String) (hkm : k ∈ keep) (ek : Entry) (hek : ek ∈ fs)
    (hekp : ek.path = k) : ek ∈ (clean fs keep).1 := by
  have hk : keep.contains k = true := by simpa using hkm
  have h1 : ek ∈ (removeFiles keep fs).1 :=
    removeFiles_mem keep fs ek hek (by simp [keepFile, hekp, hkm])
  exact removeDirs_preserve keep k hk _ _ ek h1 hekp ek h1 (Or.inl hekp)

lemma clean_ancestor_entry (fs : List Entry) (keep : List (List String))
    (k : List String) (hkm : k ∈ keep) (ek : Entry) (hek : ek ∈ fs)
    (hekp : ek.path = k) (d : Entry) (hd : d ∈ fs) (hdd : d.isDir = true)
    (hdp : properPre d.path k = true) : d ∈ (clean fs keep).1 := by
  have hk : keep.contains k = true := by simpa using hkm
  have h1 : ek ∈ (removeFiles keep fs).1 :=
    removeFiles_mem keep fs ek hek (by simp [keepFile, hekp, hkm])
  have h2 : d ∈ (removeFiles keep fs).1 :=
    removeFiles_mem keep fs d hd (by simp [hdd])
  exact removeDirs_preserve keep k hk _ _ ek h1 hekp d h2 (Or.inr hdp)

/-- C6. For an existing target directory whose keep-list entries all
exist: `checkAndClean` succeeds, and afterwards every keep-list entry
still exists and every ancestor directory of the entry (up to the cleaned
root) is still present as a directory. -/
theorem checkAndClean_preserves_keep (fs : List Entry) (keep : List (List String))
    (hwf : prefixClosed fs = true)
    (hex : ∀ k ∈ keep, existsPath fs k = true) :
    ∃ out, checkAndClean (.dir fs) keep = .ok out ∧
      ∀ k ∈ keep, existsPath out.1 k = true ∧
        ∀ p ∈ ancestors k, ∃ d ∈ out.1, d.path = p ∧ d.isDir = true := by
  have hfind : keep.find? (fun k => !(existsPath fs k)) = none :=
    List.find?_eq_none.mpr (fun k hk => by simp [hex k hk])
  refine ⟨clean fs keep, by simp [checkAndClean, check, hfind], ?_⟩
  intro k hkm
  by_cases hk0 : k = []
  · subst hk0
    refine ⟨by simp [existsPath], ?_⟩
    intro p hp
    simp [ancestors] at hp
  · have hex'' : (fs.any fun e => e.path == k) = true := by
      have hx := hex k hkm
      rw [existsPath, Bool.or_eq_true] at hx
      rcases hx with h | h
      · exact absurd (by simpa using h) hk0
      · exact h
    obtain ⟨ek, hek, hekb⟩ := List.any_eq_true.mp hex''
    have hekp : ek.path = k := by simpa using hekb
    constructor
    · have hm := clean_keep_entry fs keep k hkm ek hek hekp
      simp only [existsPath, Bool.or_eq_true]
      exact Or.inr (List.any_eq_true.mpr ⟨ek, hm, by simp [hekp]⟩)
    · intro p hp
      have hall := List.all_eq_true.mp hwf ek hek
      rw [hekp] at hall
      have hany := List.all_eq_true.mp hall p hp
      obtain ⟨d, hd, hdb⟩ := List.any_eq_true.mp hany
      rw [Bool.and_eq_true] at hdb
      have hdp : d.path = p := by simpa using hdb.1
      have hdd : d.isDir = true := hdb.2
      refine ⟨d, ?_, hdp, hdd⟩
      exact clean_ancestor_entry fs keep k hkm ek hek hekp d hd hdd
        (by rw [hdp]; exact ancestors_properPre k p hp)

theorem checkAndClean_preserves_keep_witness :
    ∃ out,
      checkAndClean (.dir
          [⟨["a"], true⟩, ⟨["a", "kept.txt"], false⟩, ⟨["a", "junk.txt"], false⟩,
           ⟨["b"], true⟩])
        [["a", "kept.txt"]] = .ok out ∧
      ∀ k ∈ [["a", "kept.txt"]], existsPath out.1 k = true ∧
        ∀ p ∈ ancestors k, ∃ d ∈ out.1, d.path = p ∧ d.isDir = true :=
  checkAndClean_preserves_keep
    [⟨["a"], true⟩, ⟨["a", "kept.txt"], false⟩, ⟨["a", "junk.txt"], false⟩, ⟨["b"], true⟩]
    [["a", "kept.txt"]] (by decide) (by decide)

/-! ### Idempotence of the cleaner -/

lemma removeDirs_mem_avoid (keepSet : List (List String)) (dirs : List (List String)) :
    ∀ (fs : List Entry) (e : Entry), e ∈ fs → (∀ r ∈ dirs, r ≠ e.path) →
      e ∈ (removeDirs keepSet fs dirs).1 := by
  induction dirs with
  | nil => exact fun fs e he _ => he
  | cons q rest ih =>
      intro fs e he havoid
      unfold removeDirs
      by_cases h : keepSet.contains q = true
      · rw [if_pos h]
        exact ih fs e he fun r hr => havoid r (by simp [hr])
      · rw [if_neg h]
        dsimp only
        exact ih _ e
          (removeEmptyDir_mem_of_ne fs q e he fun hc => havoid q (by simp) hc.symm)
          (fun r hr => havoid r (by simp [hr]))

lemma removeDirs_cons (keepSet : List (List String)) (fs : List Entry)
    (q : List String) (rest : List (List String)) :
    removeDirs keepSet fs (q :: rest) =
      if keepSet.contains q then removeDirs keepSet fs rest
      else ((removeDirs keepSet (removeEmptyDir fs q).1 rest).1,
            (if (removeEmptyDir fs q).2 then [q] else []) ++
              (removeDirs keepSet (removeEmptyDir fs q).1 rest).2) := rfl

/-- After the removal loop, every surviving candidate directory that is
not in the keep set still has a strict descendant among the survivors:
candidates are processed descendants-first (the list is decreasing in
`pathLe`), so a directory that survived its own turn was non-empty then,
and no later step removes anything below it. -/
lemma removeDirs_post (keepSet : List (List String)) (L : List (List String)) :
    ∀ fs : List Entry,
      List.Pairwise (fun a b => pathLe b a = true) L →
      ∀ q ∈ L, keepSet.contains q = false →
      ∀ eq_ : Entry, eq_ ∈ (removeDirs keepSet fs L).1 → eq_.path = q →
        eq_.isDir = true →
      ∃ e ∈ (removeDirs keepSet fs L).1, properPre q e.path = true := by
  induction L with
  | nil => intro fs _ q hq; simp at hq
  | cons q0 rest ih =>
      intro fs hpair q hqL hq eq_ heq hpath hdir
      have hpt := (List.pairwise_cons.mp hpair).2
      by_cases hc0 : keepSet.contains q0 = true
      · rw [removeDirs_cons, if_pos hc0] at heq ⊢
        rcases List.mem_cons.mp hqL with rfl | hqrest
        · rw [hq] at hc0; exact absurd hc0 (by simp)
        · exact ih fs hpt q hqrest hq eq_ heq hpath hdir
      · rw [removeDirs_cons, if_neg hc0] at heq ⊢
        dsimp only at heq ⊢
        by_cases hcond : ((fs.any fun e => e.path == q0 && e.isDir) &&
            !(fs.any fun e => properPre q0 e.path)) = true
        · have hr : (removeEmptyDir fs q0).1 = fs.filter fun e => e.path != q0 := by
            unfold removeEmptyDir; rw [if_pos hcond]
          rw [hr] at heq ⊢
          rcases List.mem_cons.mp hqL with rfl | hqrest
          · exfalso
            have hin : eq_ ∈ (fs.filter fun e => e.path != q) :=
              removeDirs_subset keepSet rest _ eq_ heq
            have hppp := List.of_mem_filter hin
            rw [hpath] at hppp
            simp at hppp
          · exact ih _ hpt q hqrest hq eq_ heq hpath hdir
        · have hr : (removeEmptyDir fs q0).1 = fs := by
            unfold removeEmptyDir; rw [if_neg hcond]
          rw [hr] at heq ⊢
          rcases List.mem_cons.mp hqL with rfl | hqrest
          · have heqfs : eq_ ∈ fs := removeDirs_subset keepSet rest fs eq_ heq
            have hany1 : (fs.any fun e => e.path == q && e.isDir) = true :=
              List.any_eq_true.mpr ⟨eq_, heqfs, by simp [hpath, hdir]⟩
            have hany2 : (fs.any fun e => properPre q e.path) = true := by
              cases h2 : (fs.any fun e => properPre q e.path) with
              | true => rfl
              | false => exact absurd (by simp [hany1, h2]) hcond
            obtain ⟨e0, he0, hd0⟩ := List.any_eq_true.mp hany2
            have havoid : ∀ r ∈ rest, r ≠ e0.path := by
              intro r hr0 hre
              have hle : pathLe r q = true := List.rel_of_pairwise_cons hpair hr0
              have hnle : pathLe e0.path q = false := properPre_not_pathLe q e0.path hd0
              rw [hre, hnle] at hle
              exact Bool.false_ne_true hle
            exact ⟨e0, removeDirs_mem_avoid keepSet rest fs e0 he0 havoid, hd0⟩
          · exact ih fs hpt q hqrest hq eq_ heq hpath hdir

lemma removeDirs_noop (keepSet : List (List String)) (fs : List Entry) :
    ∀ L : List (List String),
      (∀ q ∈ L, keepSet.contains q = true ∨ removeEmptyDir fs q = (fs, false)) →
      removeDirs keepSet fs L = (fs, []) := by
  intro L
  induction L with
  | nil => intro _; rfl
  | cons q rest ih =>
      intro h
      unfold removeDirs
      by_cases hc : keepSet.contains q = true
      · rw [if_pos hc]
        exact ih fun r hr => h r (by simp [hr])
      · rcases h q (by simp) with hc' | hr
        · exact absurd hc' hc
        · rw [if_neg hc, hr]
          dsimp only
          rw [ih fun r hr0 => h r (by simp [hr0])]
          rfl

/-- A keep-list path that existed before `clean` still exists after. -/
lemma clean_existsPath (fs : List Entry) (keep : List (List String))
    (k : List String) (hkm : k ∈ keep) (hex : existsPath fs k = true) :
    existsPath (clean fs keep).1 k = true := by
  by_cases hk0 : k = []
  · subst hk0; simp [existsPath]
  · have hex'' : (fs.any fun e => e.path == k) = true := by
      rw [existsPath, Bool.or_eq_true] at hex
      rcases hex with h | h
      · exact absurd (by simpa using h) hk0
      · exact h
    obtain ⟨ek, hek, hekb⟩ := List.any_eq_true.mp hex''
    have hekp : ek.path = k := by simpa using hekb
    have hm := clean_keep_entry fs keep k hkm ek hek hekp
    simp only [existsPath, Bool.or_eq_true]
    exact Or.inr (List.any_eq_true.mpr ⟨ek, hm, by simp [hekp]⟩)

/-- C7. The keep-list cleaner is idempotent: if `checkAndClean`
succeeds on a directory, running it again on the result succeeds, yields
the same tree, and performs no further deletions (its deletion log is
empty). -/
theorem checkAndClean_idempotent (fs : List Entry) (keep : List (List String))
    (out : List Entry × List (List String))
    (h : checkAndClean (.dir fs) keep = .ok out) :
    checkAndClean (.dir out.1) keep = .ok (out.1, []) := by
  -- invert the first run
  have hfind : keep.find? (fun k => !(existsPath fs k)) = none := by
    rcases hfd : keep.find? (fun k => !(existsPath fs k)) with _ | k
    · rfl
    · simp [checkAndClean, check, hfd] at h
  have hout : clean fs keep = out := by
    simpa [checkAndClean, check, hfind] using h
  have hex : ∀ k ∈ keep, existsPath fs k = true := by
    intro k hk
    have := List.find?_eq_none.mp hfind k hk
    simpa using this
  subst hout
  -- the surviving entries
  have hsub : ∀ e ∈ (clean fs keep).1, e ∈ (removeFiles keep fs).1 := by
    intro e he
    exact removeDirs_subset keep _ _ e he
  have hpred : ∀ e ∈ (clean fs keep).1, (e.isDir || keepFile keep e.path) = true := by
    intro e he
    have hmem : e ∈ fs.filter (fun e => e.isDir || keepFile keep e.path) := hsub e he
    exact @List.of_mem_filter Entry (fun x => x.isDir || keepFile keep x.path) e fs hmem
  -- pass 1 of the second run deletes nothing
  have hrf : removeFiles keep (clean fs keep).1 = ((clean fs keep).1, []) := by
    unfold removeFiles
    rw [List.filter_eq_self.mpr hpred]
    have h2 : ((clean fs keep).1.filter fun e =>
        !(e.isDir || keepFile keep e.path)) = [] := by
      rw [List.filter_eq_nil_iff]
      intro e he
      simp [hpred e he]
    rw [h2]
    rfl
  -- pass 2 of the second run deletes nothing
  have hpair : List.Pairwise (fun a b => pathLe b a = true)
      (sortLe (((removeFiles keep fs).1.filter collectedDir).map Entry.path)).reverse :=
    (List.pairwise_reverse).mpr (pairwise_sortLe _)
  have hnoop2 : ∀ q ∈ (sortLe (((clean fs keep).1.filter collectedDir).map
        Entry.path)).reverse,
      keep.contains q = true ∨ removeEmptyDir (clean fs keep).1 q = ((clean fs keep).1, false) := by
    intro q hq2
    by_cases hc : keep.contains q = true
    · exact Or.inl hc
    · right
      rw [List.mem_reverse, mem_sortLe] at hq2
      obtain ⟨eq_, heq2, heqp⟩ := List.mem_map.mp hq2
      have heqf : eq_ ∈ (clean fs keep).1 := List.mem_of_mem_filter heq2
      have hcd : collectedDir eq_ = true := List.of_mem_filter heq2
      have hdir : eq_.isDir = true := by
        rw [collectedDir] at hcd
        simp only [Bool.and_eq_true] at hcd
        exact hcd.1.1.1
      have hq1 : q ∈ (sortLe (((removeFiles keep fs).1.filter collectedDir).map
          Entry.path)).reverse := by
        rw [List.mem_reverse, mem_sortLe]
        exact List.mem_map.mpr ⟨eq_, List.mem_filter.mpr ⟨hsub eq_ heqf, hcd⟩, heqp⟩
      obtain ⟨e, he, hdesc⟩ := removeDirs_post keep _ (removeFiles keep fs).1 hpair q hq1
        (by simpa using hc) eq_ heqf heqp hdir
      exact removeEmptyDir_noop_of_descendant (clean fs keep).1 q e he hdesc
  have hrd : removeDirs keep (clean fs keep).1
      (sortLe (((clean fs keep).1.filter collectedDir).map Entry.path)).reverse =
      ((clean fs keep).1, []) :=
    removeDirs_noop keep (clean fs keep).1 _ hnoop2
  -- check of the second run succeeds
  have hfind' : keep.find? (fun k => !(existsPath (clean fs keep).1 k)) = none :=
    List.find?_eq_none.mpr fun k hk => by
      simp [clean_existsPath fs keep k hk (hex k hk)]
  -- assemble
  have hfinal : ∀ g : List Entry, removeFiles keep g = (g, []) →
      removeDirs keep g (sortLe ((g.filter collectedDir).map Entry.path)).reverse
        = (g, []) →
      clean g keep = (g, []) := by
    intro g h1 h2
    unfold clean
    rw [h1]
    dsimp only
    rw [h2]
    rfl
  show checkAndClean (.dir (clean fs keep).1) keep = .ok ((clean fs keep).1, [])
  simp only [checkAndClean, check, hfind']
  rw [hfinal _ hrf hrd]

theorem checkAndClean_idempotent_witness :
    checkAndClean (.dir [⟨["a"], true⟩, ⟨["a", "kept.txt"], false⟩])
        [["a", "kept.txt"]]
      = .ok ([⟨["a"], true⟩, ⟨["a", "kept.txt"], false⟩], []) :=
  checkAndClean_idempotent
    [⟨["a"], true⟩, ⟨["a", "kept.txt"], false⟩, ⟨["a", "junk.txt"], false⟩,
     ⟨["b"], true⟩, ⟨["b", "c"], true⟩]
    [["a", "kept.txt"]]
    ([⟨["a"], true⟩, ⟨["a", "kept.txt"], false⟩],
     [["a", "junk.txt"], ["b", "c"], ["b"]])
    rfl

end Librarian
